import Mathlib

/-!
Verification development for the flight-delay ML pipeline notebook
(`spark_play_ml.ipynb`).  The notebook's own logic is a linear chain of
table transformations: a left-outer join of flights against planes, four
integer casts, two derived columns (`plane_age`, `is_late`/`label`), a
null-row filter, a two-column string-indexing/one-hot pipeline fit once on
the whole table, a 0.8/0.2 random train/test split, and a cross-validated
grid search for a logistic regression.

Tables are shallowly embedded as lists of rows; a row is an association
list from column name to a typed value, looked up first-match (so
`withColumn` can prepend).  Operations whose implementation lives in the
underlying ML library (string indexing, random split, cross validation)
are modelled from the spec, as flagged on each definition.
-/

/-- A cell value: null, integer, string, boolean, or a numeric vector
(the result of one-hot encoding / vector assembly). -/
inductive Value where
  | VNull : Value
  | VInt (n : Int) : Value
  | VStr (s : String) : Value
  | VBool (b : Bool) : Value
  | VVec (v : List Rat) : Value
deriving DecidableEq, Repr

open Value

/-- A row: an association list from column name to value.  Lookup takes the
first binding, so prepending a binding implements column replacement. -/
abbrev Row := List (String × Value)

/-- Column lookup; a column with no binding reads as null (the join fills
unmatched right-side columns this way). -/
def getCol (r : Row) (c : String) : Value :=
  match r.find? (fun p => p.1 = c) with
  | some p => p.2
  | none => VNull

/-- `withColumn`: bind column `c` to `v`; the new binding shadows any old
one because `getCol` is first-match. -/
def withCol (r : Row) (c : String) (v : Value) : Row := (c, v) :: r

theorem getCol_withCol_same (r : Row) (c : String) (v : Value) :
    getCol (withCol r c v) c = v := by
  simp [getCol, withCol, List.find?]

theorem getCol_withCol_ne (r : Row) (c c' : String) (v : Value) (h : c' ≠ c) :
    getCol (withCol r c v) c' = getCol r c' := by
  simp only [getCol, withCol, List.find?]
  rw [decide_eq_false (fun hc : c = c' => h hc.symm)]

/-- `withColumnRenamed old new`: rename a column in place. -/
def renameCol (old new : String) (r : Row) : Row :=
  r.map (fun p => if p.1 = old then (new, p.2) else p)

/-- The right rows matching a left row's key (SQL semantics: a null key
matches nothing). -/
def joinMatches (key : String) (l : Row) (rt : List Row) : List Row :=
  rt.filter (fun r => decide (getCol l key ≠ VNull ∧ getCol r key = getCol l key))

/-- One left row joined against the whole right table: one output row per
matching right row; with no match, one output row whose non-key right
columns read null.  `rcols` is the right table's schema. -/
def joinRow (key : String) (rcols : List String) (l : Row) (rt : List Row) :
    List Row :=
  match joinMatches key l rt with
  | [] => [l ++ (rcols.filter (fun c => decide (c ≠ key))).map (fun c => (c, VNull))]
  | ms => ms.map (fun r =>
      l ++ (rcols.filter (fun c => decide (c ≠ key))).map (fun c => (c, getCol r c)))

/-- `flights.join(planes, on="tailnum", how="leftouter")`: every left row is
expanded by its matching right rows (or null right columns when unmatched). -/
def leftOuterJoin (key : String) (rcols : List String) (lt rt : List Row) :
    List Row :=
  lt.flatMap (fun l => joinRow key rcols l rt)

theorem joinRow_ne_nil (key : String) (rcols : List String) (l : Row)
    (rt : List Row) : joinRow key rcols l rt ≠ [] := by
  unfold joinRow
  cases h : joinMatches key l rt with
  | nil => simp
  | cons a as => simp

theorem joinRow_length_of_unique (key : String) (rcols : List String) (l : Row)
    (rt : List Row)
    (hu : ∀ v, v ≠ VNull → (rt.filter (fun r => decide (getCol r key = v))).length ≤ 1) :
    (joinRow key rcols l rt).length = 1 := by
  unfold joinRow
  by_cases hn : getCol l key = VNull
  · have hnil : joinMatches key l rt = [] := by
      apply List.filter_eq_nil_iff.mpr
      intro r _
      simp [hn]
    rw [hnil]
    rfl
  · have hsame : joinMatches key l rt =
        rt.filter (fun r => decide (getCol r key = getCol l key)) := by
      apply List.filter_congr
      intro r _
      simp [hn]
    have hle := hu (getCol l key) hn
    rw [hsame]
    cases hf : rt.filter (fun r => decide (getCol r key = getCol l key)) with
    | nil => simp
    | cons a as =>
      cases as with
      | nil => simp
      | cons b bs =>
        rw [hf] at hle
        simp at hle

theorem getCol_append_of_forall_ne (l extra : Row) (c : String)
    (h : ∀ p ∈ extra, p.1 ≠ c) : getCol (l ++ extra) c = getCol l c := by
  unfold getCol
  rw [List.find?_append]
  cases hl : l.find? (fun p => decide (p.1 = c)) with
  | some p => rfl
  | none =>
    have hr : extra.find? (fun p => decide (p.1 = c)) = none := by
      apply List.find?_eq_none.mpr
      intro p hp
      simp [h p hp]
    rw [hr]
    rfl

theorem getCol_nullfill_mem (cols : List String) (c : String) (hc : c ∈ cols) :
    getCol (cols.map (fun c' => (c', VNull))) c = VNull := by
  induction cols with
  | nil => cases hc
  | cons a as ih =>
    by_cases hac : a = c
    · simp [getCol, List.find?, hac]
    · have : c ∈ as := by
        cases hc with
        | head => exact absurd rfl hac
        | tail _ h => exact h
      unfold getCol at ih ⊢
      simp only [List.map_cons, List.find?]
      rw [decide_eq_false hac]
      exact ih this

theorem leftOuterJoin_length_of_unique (key : String) (rcols : List String)
    (lt rt : List Row)
    (hu : ∀ v, v ≠ VNull → (rt.filter (fun r => decide (getCol r key = v))).length ≤ 1) :
    (leftOuterJoin key rcols lt rt).length = lt.length := by
  induction lt with
  | nil => rfl
  | cons l ls ih =>
    unfold leftOuterJoin at ih ⊢
    rw [List.flatMap_cons, List.length_append, ih,
        joinRow_length_of_unique key rcols l rt hu, List.length_cons]
    omega

theorem joinRow_mem_subset (key : String) (rcols : List String) (l : Row)
    (lt rt : List Row) (hl : l ∈ lt) (out : Row)
    (hout : out ∈ joinRow key rcols l rt) : out ∈ leftOuterJoin key rcols lt rt :=
  List.mem_flatMap.mpr ⟨l, hl, hout⟩

theorem joinRow_preserves_left (key : String) (rcols : List String) (l : Row)
    (rt : List Row) (out : Row) (hout : out ∈ joinRow key rcols l rt) (c : String)
    (hc : c ∉ rcols ∨ c = key) : getCol out c = getCol l c := by
  have hne : ∀ c', c' ∈ rcols.filter (fun c' => decide (c' ≠ key)) → c' ≠ c := by
    intro c' hc'
    have hmem := List.mem_filter.mp hc'
    intro heq
    cases hc with
    | inl h => exact h (heq ▸ hmem.1)
    | inr h =>
      have : c' ≠ key := by simpa using hmem.2
      exact this (heq.trans h)
  unfold joinRow at hout
  cases hm : joinMatches key l rt with
  | nil =>
    rw [hm] at hout
    simp only [List.mem_singleton] at hout
    subst hout
    apply getCol_append_of_forall_ne
    intro p hp
    obtain ⟨c', hc', hpc⟩ := List.mem_map.mp hp
    exact hpc ▸ hne c' hc'
  | cons m ms =>
    rw [hm] at hout
    obtain ⟨r, _, hrout⟩ := List.mem_map.mp hout
    subst hrout
    apply getCol_append_of_forall_ne
    intro p hp
    obtain ⟨c', hc', hpc⟩ := List.mem_map.mp hp
    exact hpc ▸ hne c' hc'

theorem joinRow_unmatched_null (key : String) (rcols : List String) (l : Row)
    (rt : List Row) (hm : joinMatches key l rt = []) (out : Row)
    (hout : out ∈ joinRow key rcols l rt) (c : String) (hc : c ∈ rcols)
    (hck : c ≠ key) (hl : ∀ p ∈ l, p.1 ≠ c) : getCol out c = VNull := by
  unfold joinRow at hout
  rw [hm] at hout
  simp only [List.mem_singleton] at hout
  subst hout
  unfold getCol
  rw [List.find?_append]
  have hln : l.find? (fun p => decide (p.1 = c)) = none := by
    apply List.find?_eq_none.mpr
    intro p hp
    simp [hl p hp]
  rw [hln]
  have hcmem : c ∈ rcols.filter (fun c' => decide (c' ≠ key)) :=
    List.mem_filter.mpr ⟨hc, by simp [hck]⟩
  have := getCol_nullfill_mem (rcols.filter (fun c' => decide (c' ≠ key))) c hcmem
  unfold getCol at this
  simpa using this

/-- The planes table's columns after `withColumnRenamed("year", "plane_year")`
(schema shown by `planes.show(5)` in the notebook). -/
def planesCols : List String :=
  ["tailnum", "plane_year", "type", "manufacturer", "model",
   "engines", "seats", "speed", "engine"]

/-- A small flights table shaped like the notebook's data. -/
def exFlights : List Row :=
  [[("tailnum", VStr "N101UW"), ("origin", VStr "SEA"), ("year", VInt 2013),
    ("arr_delay", VInt 5)],
   [("tailnum", VStr "N999XX"), ("origin", VStr "PDX"), ("year", VInt 2013),
    ("arr_delay", VInt (-3))]]

/-- A small planes table (already renamed) with a unique tail number per row. -/
def exPlanes : List Row :=
  [[("tailnum", VStr "N101UW"), ("plane_year", VInt 1999),
    ("engine", VStr "Turbo-fan")]]

/-- A planes table in which one tail number appears twice. -/
def dupPlanes : List Row :=
  [[("tailnum", VStr "N101UW"), ("plane_year", VInt 1999)],
   [("tailnum", VStr "N101UW"), ("plane_year", VInt 2001)]]

/-- C2, counterexample to the claim as stated: with a secondary table in
which the join key value `N101UW` appears twice, the left-outer join of a
one-row primary table yields two rows, so the result row count does not
equal the primary row count for every pair of keyed input tables. -/
theorem C2_join_rowcount_counterexample :
    (leftOuterJoin "tailnum" planesCols
        [[("tailnum", VStr "N101UW"), ("origin", VStr "SEA")]] dupPlanes).length ≠
      ([[("tailnum", VStr "N101UW"), ("origin", VStr "SEA")]] : List Row).length := by
  decide

/-- C2 (amended): provided every non-null key value appears in at most one
row of the secondary (planes) table, the left-outer join on the shared key
produces exactly one row per primary (flights) row — result row count equals
the primary row count — and for every primary row some result row preserves
all its non-secondary columns (and the key), with the secondary table's
non-key columns reading null when the primary row has no match and does not
itself bind them. -/
theorem C2_join_rowcount (key : String) (rcols : List String) (lt rt : List Row)
    (hu : ∀ v, v ≠ VNull →
      (rt.filter (fun r => decide (getCol r key = v))).length ≤ 1) :
    (leftOuterJoin key rcols lt rt).length = lt.length ∧
    ∀ l ∈ lt, ∃ out ∈ leftOuterJoin key rcols lt rt,
      (∀ c, (c ∉ rcols ∨ c = key) → getCol out c = getCol l c) ∧
      (joinMatches key l rt = [] →
        ∀ c ∈ rcols, c ≠ key → (∀ p ∈ l, p.1 ≠ c) → getCol out c = VNull) := by
  refine ⟨leftOuterJoin_length_of_unique key rcols lt rt hu, ?_⟩
  intro l hl
  obtain ⟨out, hout⟩ := List.exists_mem_of_ne_nil _ (joinRow_ne_nil key rcols l rt)
  refine ⟨out, joinRow_mem_subset key rcols l lt rt hl out hout, ?_, ?_⟩
  · intro c hc
    exact joinRow_preserves_left key rcols l rt out hout c hc
  · intro hm c hc hck hlc
    exact joinRow_unmatched_null key rcols l rt hm out hout c hc hck hlc

/-- C2, witness: the amended theorem applied to the concrete example
tables, whose single-row planes table trivially has unique keys. -/
theorem C2_join_rowcount_witness :
    (leftOuterJoin "tailnum" planesCols exFlights exPlanes).length =
      exFlights.length ∧
    ∀ l ∈ exFlights, ∃ out ∈ leftOuterJoin "tailnum" planesCols exFlights exPlanes,
      (∀ c, (c ∉ planesCols ∨ c = "tailnum") → getCol out c = getCol l c) ∧
      (joinMatches "tailnum" l exPlanes = [] →
        ∀ c ∈ planesCols, c ≠ "tailnum" → (∀ p ∈ l, p.1 ≠ c) →
          getCol out c = VNull) :=
  C2_join_rowcount "tailnum" planesCols exFlights exPlanes
    (fun _ _ => Nat.le_trans (List.length_filter_le _ _) (by decide))

/-- Decimal digit value of a character, when it is a digit. -/
def digitVal (ch : Char) : Option Nat :=
  if 48 ≤ ch.toNat ∧ ch.toNat ≤ 57 then some (ch.toNat - 48) else none

def parseNatAux : List Char → Nat → Option Nat
  | [], acc => some acc
  | ch :: cs, acc =>
    match digitVal ch with
    | some d => parseNatAux cs (acc * 10 + d)
    | none => none

/-- Parse an optionally signed decimal integer from a character list. -/
def parseIntChars : List Char → Option Int
  | [] => none
  | ch :: cs =>
    if ch = '-' then
      match cs with
      | [] => none
      | _ => (parseNatAux cs 0).map (fun n => -(n : Int))
    else
      (parseNatAux (ch :: cs) 0).map (fun n => (n : Int))

/-- Strict decimal parse of a string, the engine's string-to-integer
coercion. -/
def parseInt (s : String) : Option Int := parseIntChars s.data

/-- `cast("integer")` on a cell.  Modelled from the spec: "a value that
cannot be coerced becomes null (never raises)"; integers pass through,
booleans become 0/1, strings are parsed, everything else is null. -/
def castIntV : Value → Value
  | VInt n => VInt n
  | VBool b => VInt (if b then 1 else 0)
  | VStr s =>
    match parseInt s with
    | some n => VInt n
    | none => VNull
  | VNull => VNull
  | VVec _ => VNull

/-- Spec-side notion of coercibility: the integer a value stands for, when
there is one. -/
def intInterp : Value → Option Int
  | VInt n => some n
  | VBool b => some (if b then 1 else 0)
  | VStr s => parseInt s
  | VNull => none
  | VVec _ => none

theorem castIntV_interp (v : Value) :
    castIntV v = match intInterp v with
      | some n => VInt n
      | none => VNull := by
  cases v with
  | VStr s => simp only [castIntV, intInterp]
  | _ => rfl

theorem castIntV_shape (v : Value) :
    castIntV v = VNull ∨ ∃ n : Int, castIntV v = VInt n := by
  rw [castIntV_interp]
  cases intInterp v with
  | none => exact Or.inl rfl
  | some n => exact Or.inr ⟨n, rfl⟩

/-- One `withColumn(c, model_data.c.cast("integer"))` call, per row. -/
def castColRow (c : String) (r : Row) : Row := withCol r c (castIntV (getCol r c))

/-- The notebook's four casts, in order: `arr_delay`, `air_time`, `month`,
`plane_year`. -/
def castRow (r : Row) : Row :=
  castColRow "plane_year" (castColRow "month" (castColRow "air_time"
    (castColRow "arr_delay" r)))

def castCols : List String := ["arr_delay", "air_time", "month", "plane_year"]

theorem getCol_castColRow_same (c : String) (r : Row) :
    getCol (castColRow c r) c = castIntV (getCol r c) :=
  getCol_withCol_same r c _

theorem getCol_castColRow_ne (c c' : String) (r : Row) (h : c' ≠ c) :
    getCol (castColRow c r) c' = getCol r c' :=
  getCol_withCol_ne r c c' _ h

theorem getCol_castRow_mem (r : Row) (c : String) (hc : c ∈ castCols) :
    getCol (castRow r) c = castIntV (getCol r c) := by
  have hc' : c = "arr_delay" ∨ c = "air_time" ∨ c = "month" ∨ c = "plane_year" := by
    simpa [castCols] using hc
  unfold castRow
  rcases hc' with rfl | rfl | rfl | rfl
  · rw [getCol_castColRow_ne _ _ _ (by decide), getCol_castColRow_ne _ _ _ (by decide),
        getCol_castColRow_ne _ _ _ (by decide), getCol_castColRow_same]
  · rw [getCol_castColRow_ne _ _ _ (by decide), getCol_castColRow_ne _ _ _ (by decide),
        getCol_castColRow_same, getCol_castColRow_ne _ _ _ (by decide)]
  · rw [getCol_castColRow_ne _ _ _ (by decide), getCol_castColRow_same,
        getCol_castColRow_ne _ _ _ (by decide), getCol_castColRow_ne _ _ _ (by decide)]
  · rw [getCol_castColRow_same, getCol_castColRow_ne _ _ _ (by decide),
        getCol_castColRow_ne _ _ _ (by decide), getCol_castColRow_ne _ _ _ (by decide)]

theorem getCol_castRow_not_mem (r : Row) (c : String) (hc : c ∉ castCols) :
    getCol (castRow r) c = getCol r c := by
  have h1 : c ≠ "arr_delay" := fun h => hc (by simp [castCols, h])
  have h2 : c ≠ "air_time" := fun h => hc (by simp [castCols, h])
  have h3 : c ≠ "month" := fun h => hc (by simp [castCols, h])
  have h4 : c ≠ "plane_year" := fun h => hc (by simp [castCols, h])
  unfold castRow
  rw [getCol_castColRow_ne _ _ _ h4, getCol_castColRow_ne _ _ _ h3,
      getCol_castColRow_ne _ _ _ h2, getCol_castColRow_ne _ _ _ h1]

/-- The cast stage over a whole table: the four column casts applied to
every row. -/
def castStage (t : List Row) : List Row := t.map castRow

theorem zip_map_snd {α : Type} (f : α → α) (t : List α) (pr : α × α)
    (h : pr ∈ t.zip (t.map f)) : pr.2 = f pr.1 := by
  induction t with
  | nil => cases h
  | cons a as ih =>
    rw [List.map_cons, List.zip_cons_cons] at h
    cases h with
    | head => rfl
    | tail _ h => exact ih h

/-- C3: on the cast columns `arr_delay`, `air_time`, `month`, `plane_year`,
the integer cast turns every non-coercible value into null (and never
raises: `castIntV` is a total function), converts every coercible value to
its integer, and touches no other column.  Rows are paired with their
images by position. -/
theorem C3_cast_to_null (t : List Row) (pr : Row × Row)
    (h : pr ∈ t.zip (castStage t)) :
    (∀ c ∈ castCols,
      (intInterp (getCol pr.1 c) = none → getCol pr.2 c = VNull) ∧
      ∀ n : Int, intInterp (getCol pr.1 c) = some n → getCol pr.2 c = VInt n) ∧
    (∀ c, c ∉ castCols → getCol pr.2 c = getCol pr.1 c) := by
  have h2 := zip_map_snd castRow t pr h
  constructor
  · intro c hc
    rw [h2, getCol_castRow_mem pr.1 c hc]
    constructor
    · intro hnone
      rw [castIntV_interp, hnone]
    · intro n hn
      rw [castIntV_interp, hn]
  · intro c hc
    rw [h2, getCol_castRow_not_mem pr.1 c hc]

/-- C3, witness: a row holding the string `"NA"` (not coercible, becomes
null) and the string `"5"` (coercible, becomes the integer 5). -/
theorem C3_cast_to_null_witness :
    (∀ c ∈ castCols,
      (intInterp (getCol ([("arr_delay", VStr "5"), ("air_time", VStr "NA"),
          ("month", VInt 1), ("plane_year", VNull)] : Row) c) = none →
        getCol (castRow [("arr_delay", VStr "5"), ("air_time", VStr "NA"),
          ("month", VInt 1), ("plane_year", VNull)]) c = VNull) ∧
      ∀ n : Int, intInterp (getCol ([("arr_delay", VStr "5"), ("air_time", VStr "NA"),
          ("month", VInt 1), ("plane_year", VNull)] : Row) c) = some n →
        getCol (castRow [("arr_delay", VStr "5"), ("air_time", VStr "NA"),
          ("month", VInt 1), ("plane_year", VNull)]) c = VInt n) ∧
    (∀ c, c ∉ castCols →
      getCol (castRow [("arr_delay", VStr "5"), ("air_time", VStr "NA"),
          ("month", VInt 1), ("plane_year", VNull)]) c =
        getCol ([("arr_delay", VStr "5"), ("air_time", VStr "NA"),
          ("month", VInt 1), ("plane_year", VNull)] : Row) c) :=
  C3_cast_to_null
    [[("arr_delay", VStr "5"), ("air_time", VStr "NA"),
      ("month", VInt 1), ("plane_year", VNull)]]
    ([("arr_delay", VStr "5"), ("air_time", VStr "NA"),
      ("month", VInt 1), ("plane_year", VNull)],
     castRow [("arr_delay", VStr "5"), ("air_time", VStr "NA"),
      ("month", VInt 1), ("plane_year", VNull)])
    (by simp [castStage])

/-- Column subtraction, as in `model_data.year - model_data.plane_year`:
integer difference, null if either operand is not an integer. -/
def vsub : Value → Value → Value
  | VInt a, VInt b => VInt (a - b)
  | _, _ => VNull

/-- Column comparison, as in `model_data.arr_delay > 0`: boolean result,
null if either operand is not an integer. -/
def vgt : Value → Value → Value
  | VInt a, VInt b => VBool (decide (b < a))
  | _, _ => VNull

/-- `withColumn("plane_age", model_data.year - model_data.plane_year)`. -/
def planeAgeRow (r : Row) : Row :=
  withCol r "plane_age" (vsub (getCol r "year") (getCol r "plane_year"))

def addPlaneAge (t : List Row) : List Row := t.map planeAgeRow

/-- `withColumn("is_late", model_data.arr_delay > 0)`. -/
def isLateRow (r : Row) : Row :=
  withCol r "is_late" (vgt (getCol r "arr_delay") (VInt 0))

/-- `withColumn("label", model_data.is_late.cast("integer"))`. -/
def labelRow (r : Row) : Row :=
  withCol r "label" (castIntV (getCol r "is_late"))

/-- The null filter
`filter("arr_delay is not NULL and dep_delay is not NULL and air_time is not NULL and plane_year is not NULL")`. -/
def requiredNonNull (r : Row) : Bool :=
  decide (getCol r "arr_delay" ≠ VNull) && decide (getCol r "dep_delay" ≠ VNull) &&
  decide (getCol r "air_time" ≠ VNull) && decide (getCol r "plane_year" ≠ VNull)

def filterNulls (t : List Row) : List Row := t.filter requiredNonNull

/-- Everything the notebook does to `model_data` before the null filter:
rename `year` to `plane_year` in planes, left-outer join on `tailnum`, the
four integer casts, then the derived columns `plane_age`, `is_late`,
`label`. -/
def deriveStages (flights planes : List Row) : List Row :=
  ((leftOuterJoin "tailnum" planesCols flights
      (planes.map (renameCol "year" "plane_year"))).map castRow).map
    (fun r => labelRow (isLateRow (planeAgeRow r)))

/-- The fully prepared `model_data`: all casts and derivations, then the
null-row filter last. -/
def prepareModelData (flights planes : List Row) : List Row :=
  filterNulls (deriveStages flights planes)

/-- C9: the derived `plane_age` column is the integer difference
`year - plane_year`, null whenever either operand is null, and the
derivation changes no other column.  Rows are paired with their images by
position. -/
theorem C9_plane_age (t : List Row) (pr : Row × Row)
    (h : pr ∈ t.zip (addPlaneAge t)) :
    (∀ y p : Int, getCol pr.1 "year" = VInt y → getCol pr.1 "plane_year" = VInt p →
      getCol pr.2 "plane_age" = VInt (y - p)) ∧
    ((getCol pr.1 "year" = VNull ∨ getCol pr.1 "plane_year" = VNull) →
      getCol pr.2 "plane_age" = VNull) ∧
    (∀ c, c ≠ "plane_age" → getCol pr.2 c = getCol pr.1 c) := by
  have h2 := zip_map_snd planeAgeRow t pr h
  refine ⟨?_, ?_, ?_⟩
  · intro y p hy hp
    rw [h2]
    unfold planeAgeRow
    rw [getCol_withCol_same, hy, hp]
    rfl
  · intro hnull
    rw [h2]
    unfold planeAgeRow
    rw [getCol_withCol_same]
    cases hnull with
    | inl hy => rw [hy]; rfl
    | inr hp =>
      rw [hp]
      cases getCol pr.1 "year" <;> rfl
  · intro c hc
    rw [h2]
    unfold planeAgeRow
    rw [getCol_withCol_ne _ _ _ _ hc]

/-- C9, witness: a matched row gets `plane_age = 2013 - 1999 = 14`, a row
with null `plane_year` gets a null `plane_age`, and `origin` is untouched. -/
theorem C9_plane_age_witness :
    (∀ y p : Int,
      getCol ([("year", VInt 2013), ("plane_year", VInt 1999),
        ("origin", VStr "SEA")] : Row) "year" = VInt y →
      getCol ([("year", VInt 2013), ("plane_year", VInt 1999),
        ("origin", VStr "SEA")] : Row) "plane_year" = VInt p →
      getCol (planeAgeRow [("year", VInt 2013), ("plane_year", VInt 1999),
        ("origin", VStr "SEA")]) "plane_age" = VInt (y - p)) ∧
    ((getCol ([("year", VInt 2013), ("plane_year", VInt 1999),
        ("origin", VStr "SEA")] : Row) "year" = VNull ∨
      getCol ([("year", VInt 2013), ("plane_year", VInt 1999),
        ("origin", VStr "SEA")] : Row) "plane_year" = VNull) →
      getCol (planeAgeRow [("year", VInt 2013), ("plane_year", VInt 1999),
        ("origin", VStr "SEA")]) "plane_age" = VNull) ∧
    (∀ c, c ≠ "plane_age" →
      getCol (planeAgeRow [("year", VInt 2013), ("plane_year", VInt 1999),
        ("origin", VStr "SEA")]) c =
      getCol ([("year", VInt 2013), ("plane_year", VInt 1999),
        ("origin", VStr "SEA")] : Row) c) :=
  C9_plane_age [[("year", VInt 2013), ("plane_year", VInt 1999), ("origin", VStr "SEA")]]
    ([("year", VInt 2013), ("plane_year", VInt 1999), ("origin", VStr "SEA")],
     planeAgeRow [("year", VInt 2013), ("plane_year", VInt 1999), ("origin", VStr "SEA")])
    (by simp [addPlaneAge])

/-- A small flights table exercising the whole pipeline: rows 1 and 3
survive the null filter, row 2 has a malformed `air_time` ("NA") whose cast
becomes null, so the filter drops it. -/
def pipeFlights : List Row :=
  [[("tailnum", VStr "N101UW"), ("year", VInt 2013), ("month", VStr "1"),
    ("arr_delay", VStr "5"), ("dep_delay", VInt 2), ("air_time", VStr "140"),
    ("carrier", VStr "UA"), ("dest", VStr "SEA"), ("origin", VStr "PDX")],
   [("tailnum", VStr "N999XX"), ("year", VInt 2013), ("month", VStr "2"),
    ("arr_delay", VStr "-3"), ("dep_delay", VInt 0), ("air_time", VStr "NA"),
    ("carrier", VStr "AA"), ("dest", VStr "LAX"), ("origin", VStr "PDX")],
   [("tailnum", VStr "N101UW"), ("year", VInt 2013), ("month", VStr "3"),
    ("arr_delay", VStr "0"), ("dep_delay", VInt 1), ("air_time", VStr "130"),
    ("carrier", VStr "UA"), ("dest", VStr "SEA"), ("origin", VStr "PDX")]]

/-- A small planes table, before the `year` → `plane_year` rename. -/
def pipePlanes : List Row :=
  [[("tailnum", VStr "N101UW"), ("year", VInt 1999), ("engine", VStr "Turbo-fan")],
   [("tailnum", VStr "N999XX"), ("year", VInt 2001)]]

/-- C4: the null filter keeps a row exactly when none of `arr_delay`,
`dep_delay`, `air_time`, `plane_year` is null (retained rows are the very
same row values, counted with multiplicity), and in the prepared pipeline
the filter is the last stage, running after the join, all four casts and
all derived columns. -/
theorem C4_null_filter (fl pl t : List Row) (r : Row) :
    (r ∈ filterNulls t ↔ r ∈ t ∧ getCol r "arr_delay" ≠ VNull ∧
      getCol r "dep_delay" ≠ VNull ∧ getCol r "air_time" ≠ VNull ∧
      getCol r "plane_year" ≠ VNull) ∧
    (List.count r (filterNulls t) =
      if requiredNonNull r then List.count r t else 0) ∧
    prepareModelData fl pl = filterNulls (deriveStages fl pl) := by
  refine ⟨?_, ?_, rfl⟩
  · simp [filterNulls, List.mem_filter, requiredNonNull, and_assoc]
  · cases hreq : requiredNonNull r with
    | true =>
      rw [if_pos rfl]
      exact List.count_filter hreq
    | false =>
      rw [if_neg Bool.false_ne_true]
      apply List.count_eq_zero.mpr
      intro hmem
      have := (List.mem_filter.mp hmem).2
      rw [hreq] at this
      cases this

/-- C4, witness: on the concrete pipeline tables the filter's
characterisation holds for the first prepared row. -/
theorem C4_null_filter_witness :
    ((deriveStages pipeFlights pipePlanes).getD 0 [] ∈
        filterNulls (deriveStages pipeFlights pipePlanes) ↔
      (deriveStages pipeFlights pipePlanes).getD 0 [] ∈
          deriveStages pipeFlights pipePlanes ∧
        getCol ((deriveStages pipeFlights pipePlanes).getD 0 []) "arr_delay" ≠ VNull ∧
        getCol ((deriveStages pipeFlights pipePlanes).getD 0 []) "dep_delay" ≠ VNull ∧
        getCol ((deriveStages pipeFlights pipePlanes).getD 0 []) "air_time" ≠ VNull ∧
        getCol ((deriveStages pipeFlights pipePlanes).getD 0 []) "plane_year" ≠ VNull) ∧
    (List.count ((deriveStages pipeFlights pipePlanes).getD 0 [])
        (filterNulls (deriveStages pipeFlights pipePlanes)) =
      if requiredNonNull ((deriveStages pipeFlights pipePlanes).getD 0 []) then
        List.count ((deriveStages pipeFlights pipePlanes).getD 0 [])
          (deriveStages pipeFlights pipePlanes)
      else 0) ∧
    prepareModelData pipeFlights pipePlanes =
      filterNulls (deriveStages pipeFlights pipePlanes) :=
  C4_null_filter pipeFlights pipePlanes (deriveStages pipeFlights pipePlanes)
    ((deriveStages pipeFlights pipePlanes).getD 0 [])

/-- C10: every row surviving the null filter carries a non-null integer
`arr_delay`, and its `label` is exactly 1 when `arr_delay > 0` and exactly
0 otherwise — even though the filter never mentions `label` or `is_late`. -/
theorem C10_label_invariant (fl pl : List Row) (r : Row)
    (h : r ∈ prepareModelData fl pl) :
    ∃ n : Int, getCol r "arr_delay" = VInt n ∧
      getCol r "label" = VInt (if 0 < n then 1 else 0) ∧
      (getCol r "label" = VInt 1 ↔ 0 < n) := by
  unfold prepareModelData filterNulls at h
  obtain ⟨hder, hpred⟩ := List.mem_filter.mp h
  unfold deriveStages at hder
  rw [List.map_map] at hder
  obtain ⟨r0, _, hr⟩ := List.mem_map.mp hder
  simp only [Function.comp_apply] at hr
  have harr : getCol r "arr_delay" = castIntV (getCol r0 "arr_delay") := by
    rw [← hr]
    unfold labelRow isLateRow planeAgeRow
    rw [getCol_withCol_ne _ _ _ _ (by decide), getCol_withCol_ne _ _ _ _ (by decide),
        getCol_withCol_ne _ _ _ _ (by decide)]
    exact getCol_castRow_mem r0 "arr_delay" (by decide)
  have hlab : getCol r "label" =
      castIntV (vgt (castIntV (getCol r0 "arr_delay")) (VInt 0)) := by
    rw [← hr]
    unfold labelRow
    rw [getCol_withCol_same]
    unfold isLateRow
    rw [getCol_withCol_same]
    unfold planeAgeRow
    rw [getCol_withCol_ne _ _ _ _ (by decide)]
    rw [getCol_castRow_mem r0 "arr_delay" (by decide)]
  have hnn : getCol r "arr_delay" ≠ VNull := by
    unfold requiredNonNull at hpred
    simp only [Bool.and_eq_true, decide_eq_true_eq] at hpred
    exact hpred.1.1.1
  rcases castIntV_shape (getCol r0 "arr_delay") with hsh | ⟨n, hsh⟩
  · rw [harr, hsh] at hnn
    exact absurd rfl hnn
  · refine ⟨n, by rw [harr, hsh], ?_, ?_⟩
    · rw [hlab, hsh]
      by_cases hpos : 0 < n
      · simp [vgt, castIntV, hpos]
      · simp [vgt, castIntV, hpos]
    · rw [hlab, hsh]
      by_cases hpos : 0 < n
      · simp [vgt, castIntV, hpos]
      · simp [vgt, castIntV, hpos]

/-- C10, witness: the first prepared row of the concrete pipeline tables
has `arr_delay = 5` and `label = 1`. -/
theorem C10_label_invariant_witness :
    ∃ n : Int,
      getCol ((prepareModelData pipeFlights pipePlanes).getD 0 []) "arr_delay" =
        VInt n ∧
      getCol ((prepareModelData pipeFlights pipePlanes).getD 0 []) "label" =
        VInt (if 0 < n then 1 else 0) ∧
      (getCol ((prepareModelData pipeFlights pipePlanes).getD 0 []) "label" =
          VInt 1 ↔ 0 < n) :=
  C10_label_invariant pipeFlights pipePlanes
    ((prepareModelData pipeFlights pipePlanes).getD 0 []) (by decide)

/-- The list of values a column takes, row by row. -/
def colValues (c : String) (t : List Row) : List Value :=
  t.map (fun r => getCol r c)

/-- Number of occurrences of a value in a column. -/
def countVal (vs : List Value) (v : Value) : Nat :=
  (vs.filter (fun w => decide (w = v))).length

/-- Position of the first occurrence of a value in a column. -/
def firstSeen (vs : List Value) (v : Value) : Nat := vs.indexOf v

/-- The distinct observed values, in first-seen order. -/
def distinctsIn : List Value → List Value
  | [] => []
  | v :: vs => v :: (distinctsIn vs).filter (fun w => decide (w ≠ v))

/-- Modelled from the spec: the StringIndexer's precedence order between
observed values — strictly more frequent first, frequency ties broken by
first-seen order.  `idxBefore vs w v` says `w` precedes `v`. -/
def idxBefore (vs : List Value) (w v : Value) : Bool :=
  decide (countVal vs v < countVal vs w) ||
  (decide (countVal vs w = countVal vs v) && decide (firstSeen vs w < firstSeen vs v))

/-- Modelled from the spec: the StringIndexer's fitted integer code of a
value — its rank in the precedence order among the distinct observed
values, so the codes are 0..k-1 by descending frequency. -/
def indexerCode (vs : List Value) (v : Value) : Nat :=
  ((distinctsIn vs).filter (fun w => idxBefore vs w v)).length

/-- `StringIndexer(inputCol=c, ...)` fit on a table: the code map built
from the whole column. -/
def stringIndexerFit (c : String) (t : List Row) : Value → Nat :=
  fun v => indexerCode (colValues c t) v

theorem mem_distinctsIn (vs : List Value) (v : Value) :
    v ∈ distinctsIn vs ↔ v ∈ vs := by
  induction vs with
  | nil => simp [distinctsIn]
  | cons a as ih =>
    simp only [distinctsIn, List.mem_cons]
    constructor
    · intro h
      cases h with
      | inl h => exact Or.inl h
      | inr h => exact Or.inr (ih.mp (List.mem_filter.mp h).1)
    · intro h
      cases h with
      | inl h => exact Or.inl h
      | inr h =>
        by_cases hva : v = a
        · exact Or.inl hva
        · exact Or.inr (List.mem_filter.mpr ⟨ih.mpr h, by simp [hva]⟩)

theorem nodup_distinctsIn (vs : List Value) : (distinctsIn vs).Nodup := by
  induction vs with
  | nil => exact List.nodup_nil
  | cons a as ih =>
    refine List.nodup_cons.mpr ⟨?_, List.Nodup.filter _ ih⟩
    intro hmem
    have := (List.mem_filter.mp hmem).2
    simp at this

theorem idxBefore_irrefl (vs : List Value) (v : Value) :
    idxBefore vs v v = false := by
  simp [idxBefore]

theorem idxBefore_trans (vs : List Value) (x w v : Value)
    (h1 : idxBefore vs x w = true) (h2 : idxBefore vs w v = true) :
    idxBefore vs x v = true := by
  simp only [idxBefore, Bool.or_eq_true, Bool.and_eq_true, decide_eq_true_eq] at h1 h2 ⊢
  omega

theorem idxBefore_total (vs : List Value) (v w : Value) (hv : v ∈ vs)
    (hw : w ∈ vs) (hne : v ≠ w) :
    idxBefore vs w v = true ∨ idxBefore vs v w = true := by
  have hidx : firstSeen vs v ≠ firstSeen vs w := by
    intro h
    exact hne ((List.indexOf_inj hv hw).mp h)
  simp only [idxBefore, Bool.or_eq_true, Bool.and_eq_true, decide_eq_true_eq]
  omega

theorem indexerCode_lt_of_idxBefore (vs : List Value) (v w : Value)
    (_hv : v ∈ distinctsIn vs) (hw : w ∈ distinctsIn vs)
    (hb : idxBefore vs w v = true) : indexerCode vs w < indexerCode vs v := by
  unfold indexerCode
  have hsub : (distinctsIn vs).filter (fun x => idxBefore vs x w) =
      ((distinctsIn vs).filter (fun x => idxBefore vs x v)).filter
        (fun x => idxBefore vs x w) := by
    rw [List.filter_filter]
    apply List.filter_congr
    intro x _
    cases hx : idxBefore vs x w with
    | true => simp [idxBefore_trans vs x w v hx hb]
    | false => simp
  rw [hsub]
  apply List.length_filter_lt_length_iff_exists.mpr
  refine ⟨w, List.mem_filter.mpr ⟨hw, hb⟩, ?_⟩
  simp [idxBefore_irrefl]

theorem indexerCode_lt_card (vs : List Value) (v : Value)
    (hv : v ∈ distinctsIn vs) : indexerCode vs v < (distinctsIn vs).length := by
  unfold indexerCode
  apply List.length_filter_lt_length_iff_exists.mpr
  exact ⟨v, hv, by simp [idxBefore_irrefl]⟩

theorem indexerCode_ne_of_ne (vs : List Value) (v w : Value)
    (hv : v ∈ distinctsIn vs) (hw : w ∈ distinctsIn vs) (hne : v ≠ w) :
    indexerCode vs v ≠ indexerCode vs w := by
  have hv' := (mem_distinctsIn vs v).mp hv
  have hw' := (mem_distinctsIn vs w).mp hw
  cases idxBefore_total vs v w hv' hw' hne with
  | inl h => exact Nat.ne_of_gt (indexerCode_lt_of_idxBefore vs v w hv hw h)
  | inr h => exact Nat.ne_of_lt (indexerCode_lt_of_idxBefore vs w v hw hv h)

theorem indexerCode_surjective (vs : List Value) (i : Nat)
    (hi : i < (distinctsIn vs).length) :
    ∃ u ∈ distinctsIn vs, indexerCode vs u = i := by
  have hnodup : ((distinctsIn vs).map (indexerCode vs)).Nodup := by
    apply List.Nodup.map_on
    · intro x hx y hy hxy
      by_contra hne
      exact indexerCode_ne_of_ne vs x y hx hy hne hxy
    · exact nodup_distinctsIn vs
  have hsubset : ((distinctsIn vs).map (indexerCode vs)).toFinset ⊆
      Finset.range (distinctsIn vs).length := by
    intro m hm
    obtain ⟨u, hu, hum⟩ := List.mem_map.mp (List.mem_toFinset.mp hm)
    exact Finset.mem_range.mpr (hum ▸ indexerCode_lt_card vs u hu)
  have hcard : (Finset.range (distinctsIn vs).length).card ≤
      ((distinctsIn vs).map (indexerCode vs)).toFinset.card := by
    rw [Finset.card_range, List.toFinset_card_of_nodup hnodup, List.length_map]
  have heq := Finset.eq_of_subset_of_card_le hsubset hcard
  have : i ∈ ((distinctsIn vs).map (indexerCode vs)).toFinset := by
    rw [heq]
    exact Finset.mem_range.mpr hi
  obtain ⟨u, hu, hui⟩ := List.mem_map.mp (List.mem_toFinset.mp this)
  exact ⟨u, hu, hui⟩

/-- C5: the fitted string indexer assigns identical codes to identical
values and distinct codes to distinct observed values; the codes are
exactly 0..k-1 for the k distinct observed values, ordered by descending
frequency with frequency ties broken by first-seen order; and the fit is a
pure function of the dataset, so two fits on the same dataset produce the
same mapping. -/
theorem C5_indexer_codes (c : String) (t : List Row) (v w : Value)
    (hv : v ∈ distinctsIn (colValues c t)) (hw : w ∈ distinctsIn (colValues c t)) :
    (v = w → stringIndexerFit c t v = stringIndexerFit c t w) ∧
    (v ≠ w → stringIndexerFit c t v ≠ stringIndexerFit c t w) ∧
    stringIndexerFit c t v < (distinctsIn (colValues c t)).length ∧
    (∀ i, i < (distinctsIn (colValues c t)).length →
      ∃ u ∈ distinctsIn (colValues c t), stringIndexerFit c t u = i) ∧
    (countVal (colValues c t) w < countVal (colValues c t) v →
      stringIndexerFit c t v < stringIndexerFit c t w) ∧
    (countVal (colValues c t) v = countVal (colValues c t) w →
      firstSeen (colValues c t) v < firstSeen (colValues c t) w →
      stringIndexerFit c t v < stringIndexerFit c t w) ∧
    stringIndexerFit c t = stringIndexerFit c t := by
  refine ⟨fun h => by rw [h], ?_, ?_, ?_, ?_, ?_, rfl⟩
  · exact fun hne => indexerCode_ne_of_ne (colValues c t) v w hv hw hne
  · exact indexerCode_lt_card (colValues c t) v hv
  · exact fun i hi => indexerCode_surjective (colValues c t) i hi
  · intro hcnt
    apply indexerCode_lt_of_idxBefore (colValues c t) w v hw hv
    simp only [idxBefore, Bool.or_eq_true, decide_eq_true_eq]
    exact Or.inl hcnt
  · intro hcnt hfs
    apply indexerCode_lt_of_idxBefore (colValues c t) w v hw hv
    simp only [idxBefore, Bool.or_eq_true, Bool.and_eq_true, decide_eq_true_eq]
    exact Or.inr ⟨hcnt, hfs⟩

/-- C5, witness: on the carrier column of the concrete flights table
(values UA, AA, UA) the indexer's guarantees hold for the two distinct
observed values. -/
theorem C5_indexer_codes_witness :
    (VStr "UA" = VStr "AA" →
      stringIndexerFit "carrier" pipeFlights (VStr "UA") =
        stringIndexerFit "carrier" pipeFlights (VStr "AA")) ∧
    (VStr "UA" ≠ VStr "AA" →
      stringIndexerFit "carrier" pipeFlights (VStr "UA") ≠
        stringIndexerFit "carrier" pipeFlights (VStr "AA")) ∧
    stringIndexerFit "carrier" pipeFlights (VStr "UA") <
      (distinctsIn (colValues "carrier" pipeFlights)).length ∧
    (∀ i, i < (distinctsIn (colValues "carrier" pipeFlights)).length →
      ∃ u ∈ distinctsIn (colValues "carrier" pipeFlights),
        stringIndexerFit "carrier" pipeFlights u = i) ∧
    (countVal (colValues "carrier" pipeFlights) (VStr "AA") <
        countVal (colValues "carrier" pipeFlights) (VStr "UA") →
      stringIndexerFit "carrier" pipeFlights (VStr "UA") <
        stringIndexerFit "carrier" pipeFlights (VStr "AA")) ∧
    (countVal (colValues "carrier" pipeFlights) (VStr "UA") =
        countVal (colValues "carrier" pipeFlights) (VStr "AA") →
      firstSeen (colValues "carrier" pipeFlights) (VStr "UA") <
        firstSeen (colValues "carrier" pipeFlights) (VStr "AA") →
      stringIndexerFit "carrier" pipeFlights (VStr "UA") <
        stringIndexerFit "carrier" pipeFlights (VStr "AA")) ∧
    stringIndexerFit "carrier" pipeFlights = stringIndexerFit "carrier" pipeFlights :=
  C5_indexer_codes "carrier" pipeFlights (VStr "UA") (VStr "AA")
    (by decide) (by decide)

/-- Modelled from the spec: the engine's per-row pseudo-random draw — a
linear congruential generator step, one draw per row position. -/
def rowDraw (seed i : Nat) : Nat :=
  ((seed + i) * 1103515245 + 12345) % 2147483648

/-- A row goes to the train side when its draw falls in the first 0.8 of
the unit interval. -/
def goesTrain (seed i : Nat) : Bool :=
  decide (rowDraw seed i * 10 < 2147483648 * 8)

/-- Modelled from the spec: `randomSplit([0.8, 0.2], seed)` — an
independent draw per row sends each row to exactly one of the two output
tables; a fixed seed makes the split reproducible. -/
def splitFrom (seed : Nat) : Nat → List Row → List Row × List Row
  | _, [] => ([], [])
  | i, r :: rs =>
    if goesTrain seed i then
      (r :: (splitFrom seed (i + 1) rs).1, (splitFrom seed (i + 1) rs).2)
    else
      ((splitFrom seed (i + 1) rs).1, r :: (splitFrom seed (i + 1) rs).2)

def randomSplit8020 (seed : Nat) (t : List Row) : List Row × List Row :=
  splitFrom seed 0 t

theorem splitFrom_length (seed i : Nat) (t : List Row) :
    (splitFrom seed i t).1.length + (splitFrom seed i t).2.length = t.length := by
  induction t generalizing i with
  | nil => rfl
  | cons r rs ih =>
    rw [splitFrom]
    cases h : goesTrain seed i with
    | true =>
      rw [if_pos rfl]
      simp only [List.length_cons]
      rw [Nat.add_right_comm, ih (i + 1)]
    | false =>
      rw [if_neg Bool.false_ne_true]
      simp only [List.length_cons]
      rw [← Nat.add_assoc, ih (i + 1)]

theorem splitFrom_count (seed i : Nat) (t : List Row) (r : Row) :
    List.count r (splitFrom seed i t).1 + List.count r (splitFrom seed i t).2 =
      List.count r t := by
  induction t generalizing i with
  | nil => rfl
  | cons a rs ih =>
    rw [splitFrom]
    cases h : goesTrain seed i with
    | true =>
      rw [if_pos rfl]
      simp only [List.count_cons]
      rw [← ih (i + 1)]
      omega
    | false =>
      rw [if_neg Bool.false_ne_true]
      simp only [List.count_cons]
      rw [← ih (i + 1)]
      omega

theorem splitFrom_mem_left (seed i : Nat) (t : List Row) (r : Row)
    (h : r ∈ (splitFrom seed i t).1) : r ∈ t := by
  induction t generalizing i with
  | nil => cases h
  | cons a rs ih =>
    rw [splitFrom] at h
    cases hg : goesTrain seed i with
    | true =>
      rw [hg, if_pos rfl] at h
      cases h with
      | head => exact List.mem_cons_self _ _
      | tail _ h => exact List.mem_cons_of_mem _ (ih (i + 1) h)
    | false =>
      rw [hg, if_neg Bool.false_ne_true] at h
      exact List.mem_cons_of_mem _ (ih (i + 1) h)

theorem splitFrom_mem_right (seed i : Nat) (t : List Row) (r : Row)
    (h : r ∈ (splitFrom seed i t).2) : r ∈ t := by
  induction t generalizing i with
  | nil => cases h
  | cons a rs ih =>
    rw [splitFrom] at h
    cases hg : goesTrain seed i with
    | true =>
      rw [hg, if_pos rfl] at h
      exact List.mem_cons_of_mem _ (ih (i + 1) h)
    | false =>
      rw [hg, if_neg Bool.false_ne_true] at h
      cases h with
      | head => exact List.mem_cons_self _ _
      | tail _ h => exact List.mem_cons_of_mem _ (ih (i + 1) h)

/-- C6: the 0.8/0.2 random split partitions the input rows exactly — with
multiplicity, every input row lands in exactly one of the two output
tables, so nothing is duplicated or dropped — and the split is a pure
function of the input and seed, so a repeated split with the same seed
yields the same partition. -/
theorem C6_random_split (seed : Nat) (t : List Row) :
    ((randomSplit8020 seed t).1.length + (randomSplit8020 seed t).2.length =
      t.length) ∧
    (∀ r : Row, List.count r (randomSplit8020 seed t).1 +
      List.count r (randomSplit8020 seed t).2 = List.count r t) ∧
    randomSplit8020 seed t = randomSplit8020 seed t :=
  ⟨splitFrom_length seed 0 t, fun r => splitFrom_count seed 0 t r, rfl⟩

/-- C6, witness: the concrete flights table splits into two parts whose
sizes and multiplicities add back up to the input. -/
theorem C6_random_split_witness :
    ((randomSplit8020 7 pipeFlights).1.length +
      (randomSplit8020 7 pipeFlights).2.length = pipeFlights.length) ∧
    (∀ r : Row, List.count r (randomSplit8020 7 pipeFlights).1 +
      List.count r (randomSplit8020 7 pipeFlights).2 = List.count r pipeFlights) ∧
    randomSplit8020 7 pipeFlights = randomSplit8020 7 pipeFlights :=
  C6_random_split 7 pipeFlights

/-- `OneHotEncoder` drop-last one-hot vector for code `j` among `k`
categories. -/
def oneHotVec (k j : Nat) : List Rat :=
  (List.range (k - 1)).map (fun i => if i = j then 1 else 0)

/-- The fitted `StringIndexer` transform: append the code of the input
column's value as a new column. -/
def indexerTransformRow (inCol outCol : String) (f : Value → Nat) (r : Row) : Row :=
  withCol r outCol (VInt (f (getCol r inCol)))

/-- The fitted `OneHotEncoder` transform: expand the code column into a
one-hot vector column. -/
def encoderTransformRow (inCol outCol : String) (k : Nat) (r : Row) : Row :=
  withCol r outCol
    (match getCol r inCol with
     | VInt j => VVec (oneHotVec k j.toNat)
     | _ => VNull)

/-- A value's contribution to the assembled feature vector. -/
def valueAsVec : Value → List Rat
  | VInt n => [(n : Rat)]
  | VVec v => v
  | _ => []

/-- `VectorAssembler(inputCols=['month', 'air_time', 'carrier_fact',
'dest_fact', 'plane_age'], outputCol='features')`. -/
def assembleRow (r : Row) : Row :=
  withCol r "features"
    (VVec ((["month", "air_time", "carrier_fact", "dest_fact",
      "plane_age"] : List String).flatMap (fun c => valueAsVec (getCol r c))))

/-- One row through the five fitted pipeline stages, in the notebook's
stage order: carrier indexer, carrier encoder, dest indexer, dest encoder,
vector assembler. -/
def pipeRow (cf df : Value → Nat) (ck dk : Nat) (r : Row) : Row :=
  assembleRow (encoderTransformRow "dest_index" "dest_fact" dk
    (indexerTransformRow "dest" "dest_index" df
      (encoderTransformRow "carrier_index" "carrier_fact" ck
        (indexerTransformRow "carrier" "carrier_index" cf r))))

/-- `model_pipe.fit(fitOn).transform(t)`: both string indexers are fit on
`fitOn`, then every row of `t` passes through the fitted stages. -/
def pipelineFitTransform (t fitOn : List Row) : List Row :=
  t.map (pipeRow (stringIndexerFit "carrier" fitOn) (stringIndexerFit "dest" fitOn)
    (distinctsIn (colValues "carrier" fitOn)).length
    (distinctsIn (colValues "dest" fitOn)).length)

/-- `piped_data = model_pipe.fit(model_data).transform(model_data)` — a
single fit, on the complete prepared dataset. -/
def pipedData (flights planes : List Row) : List Row :=
  pipelineFitTransform (prepareModelData flights planes)
    (prepareModelData flights planes)

/-- `train, test = piped_data.randomSplit([0.8, 0.2])` — the partition is
taken only after the already-transformed table exists. -/
def trainTestSplit (flights planes : List Row) (seed : Nat) :
    List Row × List Row :=
  randomSplit8020 seed (pipedData flights planes)

theorem getCol_pipeRow_carrier (cf df : Value → Nat) (ck dk : Nat) (r : Row) :
    getCol (pipeRow cf df ck dk r) "carrier" = getCol r "carrier" := by
  unfold pipeRow assembleRow encoderTransformRow indexerTransformRow
  rw [getCol_withCol_ne _ _ _ _ (by decide), getCol_withCol_ne _ _ _ _ (by decide),
      getCol_withCol_ne _ _ _ _ (by decide), getCol_withCol_ne _ _ _ _ (by decide),
      getCol_withCol_ne _ _ _ _ (by decide)]

theorem getCol_pipeRow_dest (cf df : Value → Nat) (ck dk : Nat) (r : Row) :
    getCol (pipeRow cf df ck dk r) "dest" = getCol r "dest" := by
  unfold pipeRow assembleRow encoderTransformRow indexerTransformRow
  rw [getCol_withCol_ne _ _ _ _ (by decide), getCol_withCol_ne _ _ _ _ (by decide),
      getCol_withCol_ne _ _ _ _ (by decide), getCol_withCol_ne _ _ _ _ (by decide),
      getCol_withCol_ne _ _ _ _ (by decide)]

theorem getCol_pipeRow_carrier_index (cf df : Value → Nat) (ck dk : Nat) (r : Row) :
    getCol (pipeRow cf df ck dk r) "carrier_index" =
      VInt (cf (getCol r "carrier")) := by
  unfold pipeRow assembleRow encoderTransformRow indexerTransformRow
  rw [getCol_withCol_ne _ _ _ _ (by decide), getCol_withCol_ne _ _ _ _ (by decide),
      getCol_withCol_ne _ _ _ _ (by decide), getCol_withCol_ne _ _ _ _ (by decide),
      getCol_withCol_same]

theorem getCol_pipeRow_dest_index (cf df : Value → Nat) (ck dk : Nat) (r : Row) :
    getCol (pipeRow cf df ck dk r) "dest_index" =
      VInt (df (getCol r "dest")) := by
  unfold pipeRow assembleRow encoderTransformRow indexerTransformRow
  rw [getCol_withCol_ne _ _ _ _ (by decide), getCol_withCol_ne _ _ _ _ (by decide),
      getCol_withCol_same, getCol_withCol_ne _ _ _ _ (by decide),
      getCol_withCol_ne _ _ _ _ (by decide)]

theorem pipedData_index_invariant (fl pl : List Row) (r : Row)
    (h : r ∈ pipedData fl pl) :
    getCol r "carrier_index" = VInt (stringIndexerFit "carrier"
      (prepareModelData fl pl) (getCol r "carrier")) ∧
    getCol r "dest_index" = VInt (stringIndexerFit "dest"
      (prepareModelData fl pl) (getCol r "dest")) := by
  obtain ⟨r0, _, hr⟩ := List.mem_map.mp h
  subst hr
  constructor
  · rw [getCol_pipeRow_carrier_index, getCol_pipeRow_carrier]
  · rw [getCol_pipeRow_dest_index, getCol_pipeRow_dest]

/-- C1: because the two string indexers are fit exactly once, on the
complete prepared dataset, and the random train/test partition is taken
only afterwards from the transformed table, any category value appearing
in both partitions carries the same integer code on both sides (for the
carrier and the dest columns alike). -/
theorem C1_fit_once_before_split (fl pl : List Row) (seed : Nat) (r1 r2 : Row)
    (h1 : r1 ∈ (trainTestSplit fl pl seed).1)
    (h2 : r2 ∈ (trainTestSplit fl pl seed).2) :
    (getCol r1 "carrier" = getCol r2 "carrier" →
      getCol r1 "carrier_index" = getCol r2 "carrier_index") ∧
    (getCol r1 "dest" = getCol r2 "dest" →
      getCol r1 "dest_index" = getCol r2 "dest_index") := by
  have hm1 : r1 ∈ pipedData fl pl :=
    splitFrom_mem_left seed 0 (pipedData fl pl) r1 h1
  have hm2 : r2 ∈ pipedData fl pl :=
    splitFrom_mem_right seed 0 (pipedData fl pl) r2 h2
  have hi1 := pipedData_index_invariant fl pl r1 hm1
  have hi2 := pipedData_index_invariant fl pl r2 hm2
  constructor
  · intro hc
    rw [hi1.1, hi2.1, hc]
  · intro hd
    rw [hi1.2, hi2.2, hd]

/-- C1, witness: with seed 22 the two prepared rows land one in train and
one in test; both fly carrier UA to dest SEA and indeed read identical
codes. -/
theorem C1_fit_once_before_split_witness :
    (getCol ((trainTestSplit pipeFlights pipePlanes 22).1.getD 0 []) "carrier" =
        getCol ((trainTestSplit pipeFlights pipePlanes 22).2.getD 0 []) "carrier" →
      getCol ((trainTestSplit pipeFlights pipePlanes 22).1.getD 0 []) "carrier_index" =
        getCol ((trainTestSplit pipeFlights pipePlanes 22).2.getD 0 []) "carrier_index") ∧
    (getCol ((trainTestSplit pipeFlights pipePlanes 22).1.getD 0 []) "dest" =
        getCol ((trainTestSplit pipeFlights pipePlanes 22).2.getD 0 []) "dest" →
      getCol ((trainTestSplit pipeFlights pipePlanes 22).1.getD 0 []) "dest_index" =
        getCol ((trainTestSplit pipeFlights pipePlanes 22).2.getD 0 []) "dest_index") :=
  C1_fit_once_before_split pipeFlights pipePlanes 22
    ((trainTestSplit pipeFlights pipePlanes 22).1.getD 0 [])
    ((trainTestSplit pipeFlights pipePlanes 22).2.getD 0 [])
    (by decide) (by decide)

/-- Ceiling of a nonnegative rational, as a natural number. -/
def ceilNatQ (q : Rat) : Nat := (q.num.toNat + (q.den - 1)) / q.den

/-- `np.arange(start, stop, step)`: the values `start + i*step` for
`i < ceil((stop - start) / step)`. -/
def arangeQ (start stop step : Rat) : List Rat :=
  (List.range (ceilNatQ ((stop - start) / step))).map
    (fun i => start + (i : Rat) * step)

/-- `grid.addGrid(lr.regParam, np.arange(0, .1, .01))`: ten candidate
regularisation strengths. -/
def regParamGrid : List Rat := arangeQ 0 (1 / 10) (1 / 100)

/-- `grid.addGrid(lr.elasticNetParam, [0, 1])`: two candidate elastic-net
mixes. -/
def elasticNetGrid : List Rat := [0, 1]

/-- One grid point: a value for each swept hyperparameter. -/
structure ParamMap where
  regParam : Rat
  elasticNetParam : Rat
deriving DecidableEq, Repr

/-- `grid.build()`: the cartesian product of the candidate sets. -/
def paramGrid : List ParamMap :=
  regParamGrid.flatMap (fun r => elasticNetGrid.map (fun e => ⟨r, e⟩))

/-- Modelled from the spec: the k-fold partition — the row at position i is
held out in fold i mod k. -/
def foldValid (k f : Nat) (t : List Row) : List Row :=
  (t.enum.filter (fun p => decide (p.1 % k = f))).map (fun p => p.2)

def foldTrain (k f : Nat) (t : List Row) : List Row :=
  (t.enum.filter (fun p => decide (p.1 % k ≠ f))).map (fun p => p.2)

/-- Modelled from the spec: the cross-validation sweep — exactly one fit
and evaluation per (grid point, fold) pair.  `fitScore p tr va` abstracts
fitting the estimator with parameters `p` on `tr` and scoring on `va`. -/
def cvFoldFits (fitScore : ParamMap → List Row → List Row → Rat) (k : Nat)
    (grid : List ParamMap) (train : List Row) : List (ParamMap × Nat × Rat) :=
  grid.flatMap (fun p => (List.range k).map
    (fun f => (p, f, fitScore p (foldTrain k f train) (foldValid k f train))))

/-- Mean cross-validated metric of one grid point. -/
def avgMetric (fitScore : ParamMap → List Row → List Row → Rat) (k : Nat)
    (train : List Row) (p : ParamMap) : Rat :=
  ((List.range k).map
    (fun f => fitScore p (foldTrain k f train) (foldValid k f train))).sum / k

/-- The first grid point attaining the maximal score. -/
def selectBest (score : ParamMap → Rat) : List ParamMap → Option ParamMap
  | [] => none
  | p :: ps =>
    match selectBest score ps with
    | none => some p
    | some q => if score q > score p then some q else some p

/-- Modelled from the spec: `cv.fit(train).bestModel` — the grid point with
the maximal mean cross-validated metric, refit by the abstract `fit` on the
entire training set. -/
def crossValidatorBest (A : Type) (fit : ParamMap → List Row → A)
    (fitScore : ParamMap → List Row → List Row → Rat) (k : Nat)
    (grid : List ParamMap) (train : List Row) : Option A :=
  (selectBest (avgMetric fitScore k train) grid).map (fun p => fit p train)

theorem selectBest_isSome (score : ParamMap → Rat) (p : ParamMap)
    (ps : List ParamMap) : ∃ b, selectBest score (p :: ps) = some b := by
  rw [selectBest]
  cases selectBest score ps with
  | none => exact ⟨p, rfl⟩
  | some q =>
    dsimp only
    by_cases h : score q > score p
    · exact ⟨q, by rw [if_pos h]⟩
    · exact ⟨p, by rw [if_neg h]⟩

theorem selectBest_mem_max (score : ParamMap → Rat) :
    ∀ (grid : List ParamMap) (b : ParamMap), selectBest score grid = some b →
      b ∈ grid ∧ ∀ p ∈ grid, score p ≤ score b := by
  intro grid
  induction grid with
  | nil => intro b h; cases h
  | cons p ps ih =>
    intro b h
    rw [selectBest] at h
    cases hm : selectBest score ps with
    | none =>
      rw [hm] at h
      cases h
      refine ⟨List.mem_cons_self _ _, ?_⟩
      intro q hq
      cases hq with
      | head => exact le_refl _
      | tail _ hq' =>
        cases ps with
        | nil => cases hq'
        | cons a as =>
          obtain ⟨b', hb'⟩ := selectBest_isSome score a as
          rw [hm] at hb'
          cases hb'
    | some q =>
      rw [hm] at h
      dsimp only at h
      obtain ⟨hqmem, hqmax⟩ := ih q hm
      by_cases hgt : score q > score p
      · rw [if_pos hgt] at h
        cases h
        refine ⟨List.mem_cons_of_mem _ hqmem, ?_⟩
        intro x hx
        cases hx with
        | head => exact le_of_lt hgt
        | tail _ hx' => exact hqmax x hx'
      · rw [if_neg hgt] at h
        cases h
        refine ⟨List.mem_cons_self _ _, ?_⟩
        intro x hx
        cases hx with
        | head => exact le_refl _
        | tail _ hx' => exact le_trans (hqmax x hx') (not_lt.mp hgt)

theorem selectBest_exists (score : ParamMap → Rat) (grid : List ParamMap)
    (hne : grid ≠ []) :
    ∃ b, selectBest score grid = some b ∧ b ∈ grid ∧
      ∀ p ∈ grid, score p ≤ score b := by
  cases grid with
  | nil => exact absurd rfl hne
  | cons p ps =>
    obtain ⟨b, hb⟩ := selectBest_isSome score p ps
    obtain ⟨hmem, hmax⟩ := selectBest_mem_max score (p :: ps) b hb
    exact ⟨b, hb, hmem, hmax⟩

theorem cvFoldFits_length (fitScore : ParamMap → List Row → List Row → Rat)
    (k : Nat) (grid : List ParamMap) (train : List Row) :
    (cvFoldFits fitScore k grid train).length = grid.length * k := by
  induction grid with
  | nil => simp [cvFoldFits]
  | cons p ps ih =>
    unfold cvFoldFits at ih ⊢
    rw [List.flatMap_cons, List.length_append, ih, List.length_map,
        List.length_range, List.length_cons, Nat.succ_mul]
    omega

theorem regParamGrid_length : regParamGrid.length = 10 := by
  simp only [regParamGrid, arangeQ, List.length_map, List.length_range]
  have h : ((1 : Rat) / 10 - 0) / ((1 : Rat) / 100) = 10 := by norm_num
  rw [h]
  unfold ceilNatQ
  rw [Rat.num_ofNat, Rat.den_ofNat]
  rfl

theorem paramGrid_length : paramGrid.length = 20 := by
  unfold paramGrid
  rw [List.length_flatMap]
  have hmap : List.map
      (List.length ∘ fun r => List.map (fun e => ParamMap.mk r e) elasticNetGrid)
      regParamGrid = List.map (fun _ => 2) regParamGrid := by
    apply List.map_congr_left
    intro r _
    rfl
  rw [hmap, List.map_const', regParamGrid_length, List.sum_replicate]
  rfl

theorem paramGrid_ne_nil : paramGrid ≠ [] := by
  intro h
  have hl := paramGrid_length
  rw [h] at hl
  cases hl

/-- C7: the built grid is the cartesian product of the ten regParam
candidates and the two elasticNetParam candidates (20 grid points); the
cross-validation sweep performs exactly |grid| x k fold-fits; and the
returned best model is the abstract estimator refit on the entire training
set at a grid point whose mean cross-validated metric is maximal over the
whole grid. -/
theorem C7_grid_cross_validation (A : Type) (fit : ParamMap → List Row → A)
    (fitScore : ParamMap → List Row → List Row → Rat) (k : Nat)
    (train : List Row) :
    regParamGrid.length = 10 ∧ elasticNetGrid.length = 2 ∧
    paramGrid.length = 10 * 2 ∧
    (cvFoldFits fitScore k paramGrid train).length = paramGrid.length * k ∧
    ∃ best ∈ paramGrid,
      crossValidatorBest A fit fitScore k paramGrid train =
        some (fit best train) ∧
      ∀ p ∈ paramGrid,
        avgMetric fitScore k train p ≤ avgMetric fitScore k train best := by
  refine ⟨regParamGrid_length, rfl, paramGrid_length.trans (by norm_num),
    cvFoldFits_length fitScore k paramGrid train, ?_⟩
  obtain ⟨b, hsel, hmem, hmax⟩ :=
    selectBest_exists (avgMetric fitScore k train) paramGrid paramGrid_ne_nil
  refine ⟨b, hmem, ?_, hmax⟩
  unfold crossValidatorBest
  rw [hsel]
  rfl

theorem arange_count_ten :
    ceilNatQ (((1 : Rat) / 10 - 0) / ((1 : Rat) / 100)) = 10 := by
  have h : ((1 : Rat) / 10 - 0) / ((1 : Rat) / 100) = 10 := by norm_num
  rw [h]
  unfold ceilNatQ
  rw [Rat.num_ofNat, Rat.den_ofNat]
  rfl

theorem mem_paramGrid_zero : ParamMap.mk 0 0 ∈ paramGrid := by
  have h1 : (0 : Rat) ∈ regParamGrid := by
    unfold regParamGrid arangeQ
    rw [arange_count_ten]
    have h0 : (0 : Nat) ∈ List.range 10 := List.mem_range.mpr (by norm_num)
    have he : (0 : Rat) + ((0 : Nat) : Rat) * (1 / 100) = 0 := by norm_num
    exact (@List.mem_map Nat Rat 0 (fun i => (0 : Rat) + (i : Rat) * (1 / 100))
      (List.range 10)).mpr ⟨0, h0, he⟩
  have h2 : ParamMap.mk 0 0 ∈ elasticNetGrid.map (fun e => ParamMap.mk 0 e) :=
    List.mem_map.mpr ⟨0, List.mem_cons_self _ _, rfl⟩
  exact List.mem_flatMap.mpr ⟨0, h1, h2⟩

/-- Modelled from the spec: the failure-tolerant sweep — each (grid point,
fold) fit may fail degenerately (recorded as `none`); every pair is still
evaluated and its outcome kept. -/
def cvFoldFitsSafe (fitScore : ParamMap → Nat → Option Rat) (k : Nat)
    (grid : List ParamMap) : List (ParamMap × Nat × Option Rat) :=
  grid.flatMap (fun p => (List.range k).map (fun f => (p, f, fitScore p f)))

/-- The recorded failures of a sweep. -/
def cvFailures (fitScore : ParamMap → Nat → Option Rat) (k : Nat)
    (grid : List ParamMap) : List (ParamMap × Nat × Option Rat) :=
  (cvFoldFitsSafe fitScore k grid).filter (fun e => decide (e.2.2 = none))

/-- A failed fold contributes the minimal (zero) score. -/
def safeScore : Option Rat → Rat
  | none => 0
  | some q => q

/-- Mean metric of a grid point under the failure policy: a failed fold
only degrades the average. -/
def avgMetricSafe (fitScore : ParamMap → Nat → Option Rat) (k : Nat)
    (p : ParamMap) : Rat :=
  ((List.range k).map (fun f => safeScore (fitScore p f))).sum / k

theorem cvFoldFitsSafe_length (fitScore : ParamMap → Nat → Option Rat)
    (k : Nat) (grid : List ParamMap) :
    (cvFoldFitsSafe fitScore k grid).length = grid.length * k := by
  induction grid with
  | nil => simp [cvFoldFitsSafe]
  | cons p ps ih =>
    unfold cvFoldFitsSafe at ih ⊢
    rw [List.flatMap_cons, List.length_append, ih, List.length_map,
        List.length_range, List.length_cons, Nat.succ_mul]
    omega

/-- C8: when a single (grid point, fold) fit fails degenerately, the sweep
still evaluates every (grid point, fold) pair, records the failure, leaves
every other grid point's average untouched relative to the counterfactual
sweep `g` in which that one fit had succeeded (with a nonnegative score),
and at the failing grid point only degrades the average. -/
theorem C8_fold_failure_policy (fitScore g : ParamMap → Nat → Option Rat)
    (k : Nat) (p0 : ParamMap) (f0 : Nat)
    (hfail : fitScore p0 f0 = none) (hp0 : p0 ∈ paramGrid) (hf0 : f0 < k)
    (hagree : ∀ p f, ¬(p = p0 ∧ f = f0) → g p f = fitScore p f)
    (hq : ∀ q, g p0 f0 = some q → 0 ≤ q) :
    (cvFoldFitsSafe fitScore k paramGrid).length = paramGrid.length * k ∧
    (∀ p ∈ paramGrid, ∀ f, f < k →
      (p, f, fitScore p f) ∈ cvFoldFitsSafe fitScore k paramGrid) ∧
    (p0, f0, (none : Option Rat)) ∈ cvFailures fitScore k paramGrid ∧
    (∀ p ∈ paramGrid, p ≠ p0 →
      avgMetricSafe fitScore k p = avgMetricSafe g k p) ∧
    avgMetricSafe fitScore k p0 ≤ avgMetricSafe g k p0 := by
  refine ⟨cvFoldFitsSafe_length fitScore k paramGrid, ?_, ?_, ?_, ?_⟩
  · intro p hp f hf
    exact List.mem_flatMap.mpr
      ⟨p, hp, List.mem_map.mpr ⟨f, List.mem_range.mpr hf, rfl⟩⟩
  · apply List.mem_filter.mpr
    constructor
    · have : (p0, f0, fitScore p0 f0) ∈ cvFoldFitsSafe fitScore k paramGrid :=
        List.mem_flatMap.mpr
          ⟨p0, hp0, List.mem_map.mpr ⟨f0, List.mem_range.mpr hf0, rfl⟩⟩
      rwa [hfail] at this
    · simp
  · intro p _ hpne
    unfold avgMetricSafe
    congr 1
    apply congrArg List.sum
    apply List.map_congr_left
    intro f _
    rw [hagree p f (fun hpf => hpne hpf.1)]
  · unfold avgMetricSafe
    have hk : (0 : Rat) < (k : Rat) := by
      have : 0 < k := Nat.lt_of_le_of_lt (Nat.zero_le f0) hf0
      exact_mod_cast this
    apply (div_le_div_iff_of_pos_right hk).mpr
    apply List.sum_le_sum
    intro f _
    by_cases hff : f = f0
    · subst hff
      rw [hfail]
      cases hg : g p0 f with
      | none => exact le_refl _
      | some q =>
        have := hq q hg
        simpa [safeScore] using this
    · rw [hagree p0 f (fun hpf => hff hpf.2)]

/-- C8, witness: a sweep in which the fit at grid point (0,0), fold 0 fails
and every other fit scores one half; all hypotheses of the failure-policy
theorem are satisfiable. -/
theorem C8_fold_failure_policy_witness :
    (cvFoldFitsSafe
        (fun p f => if p = ParamMap.mk 0 0 ∧ f = 0 then none else some (1 / 2))
        3 paramGrid).length = paramGrid.length * 3 ∧
    (∀ p ∈ paramGrid, ∀ f, f < 3 →
      (p, f, (fun p f => if p = ParamMap.mk 0 0 ∧ f = 0 then none
          else some ((1 : Rat) / 2)) p f) ∈
        cvFoldFitsSafe
          (fun p f => if p = ParamMap.mk 0 0 ∧ f = 0 then none else some (1 / 2))
          3 paramGrid) ∧
    (ParamMap.mk 0 0, 0, (none : Option Rat)) ∈ cvFailures
        (fun p f => if p = ParamMap.mk 0 0 ∧ f = 0 then none else some (1 / 2))
        3 paramGrid ∧
    (∀ p ∈ paramGrid, p ≠ ParamMap.mk 0 0 →
      avgMetricSafe
        (fun p f => if p = ParamMap.mk 0 0 ∧ f = 0 then none else some (1 / 2))
        3 p = avgMetricSafe (fun _ _ => some ((1 : Rat) / 2)) 3 p) ∧
    avgMetricSafe
        (fun p f => if p = ParamMap.mk 0 0 ∧ f = 0 then none else some (1 / 2))
        3 (ParamMap.mk 0 0) ≤
      avgMetricSafe (fun _ _ => some ((1 : Rat) / 2)) 3 (ParamMap.mk 0 0) :=
  C8_fold_failure_policy
    (fun p f => if p = ParamMap.mk 0 0 ∧ f = 0 then none else some (1 / 2))
    (fun _ _ => some ((1 : Rat) / 2)) 3 (ParamMap.mk 0 0) 0
    (if_pos ⟨rfl, rfl⟩) mem_paramGrid_zero (by norm_num)
    (fun p f hpf => (if_neg hpf).symm)
    (fun q hq2 => by
      obtain rfl : (1 : Rat) / 2 = q := Option.some.inj hq2
      norm_num)
